import Mathlib

/-!
Verification of the ARGB-1555 pixel codec and image transcoder
(`src/main.rs` of the image-packer repository).

Machine integers are modelled as `Nat` with explicit `% 2^w` wherever the
source performs an operation that could wrap in `u16` / `u32`, and `% 256`
for the `as u8` casts.  Bit operations (`>>`, `<<`, `&`, `|`) are modelled
by the corresponding `Nat` bitwise operations `>>>`, `<<<`, `&&&`, `|||`.
-/

/-- Quantization of one 8-bit channel performed inside `pack`
(`(c as u16 * 31 + 127) / 255`): the `u16` multiplication and addition wrap
modulo 2^16, written as a single outer `% 65536` (composition of the
per-operation wraps). -/
def quant5 (c : Nat) : Nat := (c * 31 + 127) % 65536 / 255

/-- Expansion of one 5-bit field performed inside `unpack`
(`(c5 as u32 * 255 + 15) / 31`): the `u32` arithmetic wraps modulo 2^32. -/
def expand8 (c5 : Nat) : Nat := (c5 * 255 + 15) % 4294967296 / 31

/-- The `pack` function of `src/main.rs` (lines 45-51): quantize each channel
to 5 bits, binarize alpha, and assemble `(a_bit << 15) | (r5 << 10) |
(g5 << 5) | b5`.  Each `u16` shift result is wrapped modulo 2^16; the `|`
of values below 2^16 cannot wrap. -/
def pack (r g b : Nat) (a : Bool) : Nat :=
  let a_bit : Nat := if a then 1 else 0
  let r5 := quant5 r
  let g5 := quant5 g
  let b5 := quant5 b
  (a_bit <<< 15) % 65536 ||| (r5 <<< 10) % 65536 ||| (g5 <<< 5) % 65536 ||| b5

/-- The `unpack` function of `src/main.rs` (lines 31-43): extract the alpha
bit and the three 5-bit fields, expand each field to 8 bits, and cast the
`u32` results to `u8` (`% 256`).  Returns `(r, g, b, a)`. -/
def unpack (v : Nat) : Nat × Nat × Nat × Nat :=
  let a : Nat := if (v >>> 15) &&& 1 = 1 then 255 else 0
  let r5 := (v >>> 10) &&& 0x1F
  let g5 := (v >>> 5) &&& 0x1F
  let b5 := v &&& 0x1F
  (expand8 r5 % 256, expand8 g5 % 256, expand8 b5 % 256, a)

/-- The per-pixel loop of `pack_image` (`src/main.rs` lines 54-67): the
decoded input image is modelled by its dimensions and its RGBA per-pixel
view `px x y = (r, g, b, a)`.  The source writes `pack(r, g, b, a > 0)` of
pixel `(x, y)` into a `width * height` buffer at row-major index
`y * width + x`; since every index `i < width * height` is written exactly
once, namely by `(x, y) = (i % width, i / width)`, the filled buffer is the
index map below. -/
def pack_image (width height : Nat) (px : Nat → Nat → Nat × Nat × Nat × Nat) :
    List Nat :=
  (List.range (width * height)).map fun i =>
    let p := px (i % width) (i / width)
    pack p.1 p.2.1 p.2.2.1 (decide (0 < p.2.2.2))

/-- Decoded dynamic image, mirroring the `image::DynamicImage` variants the
source distinguishes: `ImageLuma16` (single-channel 16-bit, the only variant
`unpack_image` accepts) and the other pixel formats, represented by the
8-bit three-channel and four-channel variants. -/
inductive DynamicImage where
  | ImageLuma16 (width height : Nat) (sample : Nat → Nat → Nat)
  | ImageRgb8 (width height : Nat) (px : Nat → Nat → Nat × Nat × Nat)
  | ImageRgba8 (width height : Nat) (px : Nat → Nat → Nat × Nat × Nat × Nat)

/-- Whether a decoded image is the single-channel 16-bit variant. -/
def DynamicImage.isLuma16 : DynamicImage → Bool
  | .ImageLuma16 _ _ _ => true
  | _ => false

/-- The `unpack_image` function of `src/main.rs` (lines 70-87), file I/O
stripped: match on the decoded image, reject everything but `ImageLuma16`
with the source's error message, otherwise apply `unpack` to every 16-bit
sample, writing the RGBA result of pixel `(x, y)` at the same `(x, y)`
(row-major index `y * width + x`). -/
def unpack_image (img : DynamicImage) :
    Except String (List (Nat × Nat × Nat × Nat)) :=
  match img with
  | .ImageLuma16 width height sample =>
      .ok ((List.range (width * height)).map fun i =>
        unpack (sample (i % width) (i / width)))
  | _ => .error "Expected a 16-bit Luma image"

/-- The concrete 2x1 RGBA image of the end-to-end scenario: pixel (0,0) is
(255,0,0,255) and pixel (1,0) is (0,255,0,0). -/
def scenarioImage : Nat → Nat → Nat × Nat × Nat × Nat := fun x _ =>
  if x = 0 then (255, 0, 0, 255) else (0, 255, 0, 0)

/-! ### Helper lemmas -/

lemma quant5_plain {c : Nat} (hc : c < 256) : quant5 c = (c * 31 + 127) / 255 := by
  unfold quant5; omega

lemma quant5_le {c : Nat} (hc : c < 256) : quant5 c ≤ 31 := by
  rw [quant5_plain hc]; omega

lemma quant5_mono {c1 c2 : Nat} (h12 : c1 ≤ c2) (h2 : c2 < 256) :
    quant5 c1 ≤ quant5 c2 := by
  rw [quant5_plain (by omega), quant5_plain h2]
  exact Nat.div_le_div_right (by omega)

lemma expand8_plain {c5 : Nat} (h5 : c5 ≤ 31) : expand8 c5 = (c5 * 255 + 15) / 31 := by
  unfold expand8; omega

lemma expand8_le {c5 : Nat} (h5 : c5 ≤ 31) : expand8 c5 ≤ 255 := by
  rw [expand8_plain h5]; omega

lemma quant5_expand8 : ∀ c5 < 32, quant5 (expand8 c5) = c5 := by decide

lemma land31 (x : Nat) : x &&& 31 = x % 32 := by
  have h := Nat.and_pow_two_sub_one_eq_mod x 5
  norm_num at h
  exact h

/-- Assembling bounded fields with shifts and `|||` is plain addition. -/
lemma assemble_or (abit r5 g5 b5 : Nat) (_ha : abit ≤ 1) (hr : r5 ≤ 31)
    (hg : g5 ≤ 31) (hb : b5 ≤ 31) :
    abit <<< 15 ||| r5 <<< 10 ||| g5 <<< 5 ||| b5
      = abit * 32768 + r5 * 1024 + g5 * 32 + b5 := by
  have e15 : abit <<< 15 = abit * 32768 := by rw [Nat.shiftLeft_eq]
  have e10 : r5 <<< 10 = r5 * 1024 := by rw [Nat.shiftLeft_eq]
  have e5 : g5 <<< 5 = g5 * 32 := by rw [Nat.shiftLeft_eq]
  have h1 : abit <<< 15 ||| r5 <<< 10 = abit * 32768 + r5 * 1024 := by
    rw [e15, e10]
    have := Nat.mul_add_lt_is_or (b := r5 * 1024) (i := 15) (by omega) abit
    calc abit * 32768 ||| r5 * 1024 = 2 ^ 15 * abit ||| r5 * 1024 := by ring_nf
      _ = 2 ^ 15 * abit + r5 * 1024 := this.symm
      _ = abit * 32768 + r5 * 1024 := by ring
  have h2 : abit * 32768 + r5 * 1024 ||| g5 <<< 5
      = abit * 32768 + r5 * 1024 + g5 * 32 := by
    rw [e5]
    have := Nat.mul_add_lt_is_or (b := g5 * 32) (i := 10) (by omega) (abit * 32 + r5)
    calc abit * 32768 + r5 * 1024 ||| g5 * 32
        = 2 ^ 10 * (abit * 32 + r5) ||| g5 * 32 := by ring_nf
      _ = 2 ^ 10 * (abit * 32 + r5) + g5 * 32 := this.symm
      _ = abit * 32768 + r5 * 1024 + g5 * 32 := by ring
  have h3 : abit * 32768 + r5 * 1024 + g5 * 32 ||| b5
      = abit * 32768 + r5 * 1024 + g5 * 32 + b5 := by
    have := Nat.mul_add_lt_is_or (b := b5) (i := 5) (by omega) (abit * 1024 + r5 * 32 + g5)
    calc abit * 32768 + r5 * 1024 + g5 * 32 ||| b5
        = 2 ^ 5 * (abit * 1024 + r5 * 32 + g5) ||| b5 := by ring_nf
      _ = 2 ^ 5 * (abit * 1024 + r5 * 32 + g5) + b5 := this.symm
      _ = abit * 32768 + r5 * 1024 + g5 * 32 + b5 := by ring
  rw [h1, h2, h3]

/-- On 8-bit inputs `pack` is the plain (non-wrapping) field sum. -/
lemma pack_eq_sum (r g b : Nat) (a : Bool) (hr : r < 256) (hg : g < 256)
    (hb : b < 256) :
    pack r g b a
      = (if a then 1 else 0) * 32768 + quant5 r * 1024 + quant5 g * 32 + quant5 b := by
  have hr5 := quant5_le hr
  have hg5 := quant5_le hg
  have hb5 := quant5_le hb
  have habit : (if a then 1 else 0 : Nat) ≤ 1 := by cases a <;> simp
  show (if a then 1 else 0 : Nat) <<< 15 % 65536 ||| quant5 r <<< 10 % 65536
      ||| quant5 g <<< 5 % 65536 ||| quant5 b = _
  rw [Nat.mod_eq_of_lt (show (if a then 1 else 0 : Nat) <<< 15 < 65536 by
      rw [Nat.shiftLeft_eq]; omega),
    Nat.mod_eq_of_lt (show quant5 r <<< 10 < 65536 by rw [Nat.shiftLeft_eq]; omega),
    Nat.mod_eq_of_lt (show quant5 g <<< 5 < 65536 by rw [Nat.shiftLeft_eq]; omega)]
  exact assemble_or _ _ _ _ habit hr5 hg5 hb5

/-- Extracting the bit fields of an assembled field sum recovers the fields. -/
lemma fields_of_sum (abit r5 g5 b5 : Nat) (ha : abit ≤ 1) (hr : r5 ≤ 31)
    (hg : g5 ≤ 31) (hb : b5 ≤ 31) :
    ((abit * 32768 + r5 * 1024 + g5 * 32 + b5) >>> 15) &&& 1 = abit ∧
    ((abit * 32768 + r5 * 1024 + g5 * 32 + b5) >>> 10) &&& 31 = r5 ∧
    ((abit * 32768 + r5 * 1024 + g5 * 32 + b5) >>> 5) &&& 31 = g5 ∧
    (abit * 32768 + r5 * 1024 + g5 * 32 + b5) &&& 31 = b5 := by
  rw [Nat.and_one_is_mod, land31, land31, land31, Nat.shiftRight_eq_div_pow,
    Nat.shiftRight_eq_div_pow, Nat.shiftRight_eq_div_pow]
  refine ⟨by omega, by omega, by omega, by omega⟩

/-- On 16-bit inputs `unpack` is the plain field extraction and expansion. -/
lemma unpack_eq (v : Nat) :
    unpack v = (expand8 (v / 1024 % 32), expand8 (v / 32 % 32), expand8 (v % 32),
      if v / 32768 % 2 = 1 then 255 else 0) := by
  have h15 : v >>> 15 = v / 32768 := by rw [Nat.shiftRight_eq_div_pow]
  have h10 : v >>> 10 = v / 1024 := by rw [Nat.shiftRight_eq_div_pow]
  have h5 : v >>> 5 = v / 32 := by rw [Nat.shiftRight_eq_div_pow]
  show (expand8 ((v >>> 10) &&& 0x1F) % 256, expand8 ((v >>> 5) &&& 0x1F) % 256,
      expand8 (v &&& 0x1F) % 256, if (v >>> 15) &&& 1 = 1 then (255:Nat) else 0) = _
  rw [h15, h10, h5, Nat.and_one_is_mod, land31, land31, land31,
    Nat.mod_eq_of_lt (show expand8 (v / 1024 % 32) < 256 by
      have := expand8_le (show v / 1024 % 32 ≤ 31 by omega); omega),
    Nat.mod_eq_of_lt (show expand8 (v / 32 % 32) < 256 by
      have := expand8_le (show v / 32 % 32 ≤ 31 by omega); omega),
    Nat.mod_eq_of_lt (show expand8 (v % 32) < 256 by
      have := expand8_le (show v % 32 ≤ 31 by omega); omega)]

/-- Packing the expansion of bounded 5-bit fields reproduces the fields. -/
lemma pack_expand_fields (r5 g5 b5 : Nat) (a : Bool) (hr : r5 ≤ 31)
    (hg : g5 ≤ 31) (hb : b5 ≤ 31) :
    pack (expand8 r5) (expand8 g5) (expand8 b5) a
      = (if a then 1 else 0) * 32768 + r5 * 1024 + g5 * 32 + b5 := by
  rw [pack_eq_sum _ _ _ _ (by have := expand8_le hr; omega)
      (by have := expand8_le hg; omega) (by have := expand8_le hb; omega),
    quant5_expand8 r5 (by omega), quant5_expand8 g5 (by omega),
    quant5_expand8 b5 (by omega)]

lemma rowmajor_mod (w x y : Nat) (hx : x < w) : (y * w + x) % w = x := by
  rw [Nat.add_comm, Nat.add_mul_mod_self_right]
  exact Nat.mod_eq_of_lt hx

lemma rowmajor_div (w x y : Nat) (hx : x < w) : (y * w + x) / w = y := by
  rw [Nat.add_comm, Nat.add_mul_div_right x y (show 0 < w by omega),
    Nat.div_eq_of_lt hx]
  omega

lemma rowmajor_lt {w h x y : Nat} (hx : x < w) (hy : y < h) : y * w + x < w * h := by
  have h1 : (y + 1) * w ≤ h * w := Nat.mul_le_mul_right w hy
  calc y * w + x < y * w + w := by omega
    _ = (y + 1) * w := by ring
    _ ≤ h * w := h1
    _ = w * h := Nat.mul_comm h w

/-! ### Claim theorems -/

/-- C1: for every 16-bit value `v`, if `unpack v = (r, g, b, a)` then
`pack r g b (a > 0)` yields exactly `v`: unpack followed by pack is the
identity on all 65536 possible 16-bit inputs. -/
theorem unpack_pack_roundtrip (v r g b a : Nat) (hv : v < 65536)
    (hu : unpack v = (r, g, b, a)) : pack r g b (decide (0 < a)) = v := by
  rw [unpack_eq v] at hu
  simp only [Prod.mk.injEq] at hu
  obtain ⟨h1, h2, h3, h4⟩ := hu
  subst h1
  subst h2
  subst h3
  subst h4
  by_cases hbit : v / 32768 % 2 = 1
  · have ha : (if v / 32768 % 2 = 1 then (255:Nat) else 0) = 255 := if_pos hbit
    rw [ha, show decide (0 < (255:Nat)) = true from rfl,
      pack_expand_fields _ _ _ true (by omega) (by omega) (by omega),
      show (if true then (1:Nat) else 0) = 1 from rfl]
    omega
  · have ha : (if v / 32768 % 2 = 1 then (255:Nat) else 0) = 0 := by
      rw [if_neg hbit]
    rw [ha, show decide (0 < (0:Nat)) = false from rfl,
      pack_expand_fields _ _ _ false (by omega) (by omega) (by omega),
      show (if false then (1:Nat) else 0) = 0 from rfl]
    omega

/-- C1 witness: the round trip holds at the concrete value 51966. -/
theorem unpack_pack_roundtrip_witness :
    pack 148 189 247 (decide (0 < 255)) = 51966 :=
  unpack_pack_roundtrip 51966 148 189 247 255 (by decide) (by decide)

/-- C2 counterexample: packing the 2x1 scenario image does NOT yield
`[0x7C00, 0x03E0]` — the first packed value is `0xFC00` (alpha bit set),
not `0x7C00`. -/
theorem scenario_fixture_counterexample :
    pack_image 2 1 scenarioImage ≠ [0x7C00, 0x03E0] := by decide

/-- C2 (amended): packing the 2x1 RGBA image with pixels (255,0,0,255) and
(0,255,0,0) yields the 16-bit buffer `[0xFC00, 0x03E0]`, matching the spec's
own derivation `(1<<15)|(31<<10) = 0xFC00` and `(31<<5) = 0x03E0`. -/
theorem scenario_buffer_value :
    pack_image 2 1 scenarioImage = [0xFC00, 0x03E0] := by decide

/-- C3: on 8-bit channels, `pack` quantizes each channel `c` to
`(c * 31 + 127) / 255`, sets the alpha bit to 1 exactly when `a` is true,
and assembles `(alpha_bit <<< 15) ||| (r5 <<< 10) ||| (g5 <<< 5) ||| b5`. -/
theorem pack_spec_formula (r g b : Nat) (a : Bool) (hr : r < 256)
    (hg : g < 256) (hb : b < 256) :
    pack r g b a
      = (if a then 1 else 0) <<< 15 ||| ((r * 31 + 127) / 255) <<< 10
        ||| ((g * 31 + 127) / 255) <<< 5 ||| (b * 31 + 127) / 255 := by
  rw [assemble_or (if a then 1 else 0) ((r * 31 + 127) / 255)
      ((g * 31 + 127) / 255) ((b * 31 + 127) / 255)
      (by cases a <;> simp) (by omega) (by omega) (by omega),
    pack_eq_sum r g b a hr hg hb, quant5_plain hr, quant5_plain hg,
    quant5_plain hb]

/-- C3 witness: the formula holds at the concrete input (200, 100, 50, true). -/
theorem pack_spec_formula_witness :
    pack 200 100 50 true
      = (if true then 1 else 0) <<< 15 ||| ((200 * 31 + 127) / 255) <<< 10
        ||| ((100 * 31 + 127) / 255) <<< 5 ||| (50 * 31 + 127) / 255 :=
  pack_spec_formula 200 100 50 true (by decide) (by decide) (by decide)

/-- C4: on any 16-bit value, `unpack` extracts the alpha bit as bit 15
(alpha 255 exactly when it is 1, else 0), extracts the 5-bit fields at bits
14-10, 9-5 and 4-0, and expands each field `c5` to `(c5 * 255 + 15) / 31`. -/
theorem unpack_spec_formula (v : Nat) (_hv : v < 65536) :
    unpack v = ((v / 1024 % 32 * 255 + 15) / 31, (v / 32 % 32 * 255 + 15) / 31,
      (v % 32 * 255 + 15) / 31, if v / 32768 % 2 = 1 then 255 else 0) := by
  rw [unpack_eq v, expand8_plain (show v / 1024 % 32 ≤ 31 by omega),
    expand8_plain (show v / 32 % 32 ≤ 31 by omega),
    expand8_plain (show v % 32 ≤ 31 by omega)]

/-- C4 witness: the extraction formula holds at the concrete value 4660. -/
theorem unpack_spec_formula_witness :
    unpack 4660 = ((4660 / 1024 % 32 * 255 + 15) / 31,
      (4660 / 32 % 32 * 255 + 15) / 31, (4660 % 32 * 255 + 15) / 31,
      if 4660 / 32768 % 2 = 1 then 255 else 0) :=
  unpack_spec_formula 4660 (by decide)

/-- C5: on 8-bit channels every quantized 5-bit value lies in [0,31], no
channel's bits bleed into an adjacent field (extracting each field of the
assembled result returns exactly the quantized value), and in particular
`(255*31+127)/255 = 31`. -/
theorem pack_field_bounds (r g b : Nat) (a : Bool) (hr : r < 256)
    (hg : g < 256) (hb : b < 256) :
    quant5 r ≤ 31 ∧ quant5 g ≤ 31 ∧ quant5 b ≤ 31 ∧
    (pack r g b a >>> 10) &&& 31 = quant5 r ∧
    (pack r g b a >>> 5) &&& 31 = quant5 g ∧
    pack r g b a &&& 31 = quant5 b ∧
    (255 * 31 + 127) / 255 = 31 := by
  have habit : (if a then 1 else 0 : Nat) ≤ 1 := by cases a <;> simp
  have hf := fields_of_sum (if a then 1 else 0) (quant5 r) (quant5 g) (quant5 b)
    habit (quant5_le hr) (quant5_le hg) (quant5_le hb)
  rw [pack_eq_sum r g b a hr hg hb]
  exact ⟨quant5_le hr, quant5_le hg, quant5_le hb, hf.2.1, hf.2.2.1, hf.2.2.2,
    by norm_num⟩

/-- C5 witness: the bounds hold at the concrete input (255, 128, 7, true). -/
theorem pack_field_bounds_witness :
    quant5 255 ≤ 31 ∧ quant5 128 ≤ 31 ∧ quant5 7 ≤ 31 ∧
    (pack 255 128 7 true >>> 10) &&& 31 = quant5 255 ∧
    (pack 255 128 7 true >>> 5) &&& 31 = quant5 128 ∧
    pack 255 128 7 true &&& 31 = quant5 7 ∧
    (255 * 31 + 127) / 255 = 31 :=
  pack_field_bounds 255 128 7 true (by decide) (by decide) (by decide)

/-- C6: `pack` with `a = true` sets bit 15 regardless of the colour channels
and with `a = false` leaves it clear; `unpack` returns alpha 255 iff bit 15
of its input is 1, and alpha 0 otherwise. -/
theorem alpha_binarization (r g b v : Nat) (hr : r < 256) (hg : g < 256)
    (hb : b < 256) (_hv : v < 65536) :
    (pack r g b true >>> 15) &&& 1 = 1 ∧
    (pack r g b false >>> 15) &&& 1 = 0 ∧
    ((unpack v).2.2.2 = 255 ↔ (v >>> 15) &&& 1 = 1) ∧
    ((v >>> 15) &&& 1 ≠ 1 → (unpack v).2.2.2 = 0) := by
  have h15 : (v >>> 15) &&& 1 = v / 32768 % 2 := by
    rw [Nat.shiftRight_eq_div_pow, Nat.and_one_is_mod]
  refine ⟨?_, ?_, ?_, ?_⟩
  · rw [pack_eq_sum r g b true hr hg hb]
    exact (fields_of_sum (if true then 1 else 0) _ _ _ (by norm_num)
      (quant5_le hr) (quant5_le hg) (quant5_le hb)).1
  · rw [pack_eq_sum r g b false hr hg hb]
    exact (fields_of_sum (if false then 1 else 0) _ _ _ (by norm_num)
      (quant5_le hr) (quant5_le hg) (quant5_le hb)).1
  · rw [unpack_eq v, h15]
    by_cases hbit : v / 32768 % 2 = 1 <;> simp [hbit]
  · rw [unpack_eq v, h15]
    by_cases hbit : v / 32768 % 2 = 1 <;> simp [hbit]

/-- C6 witness: alpha binarization at the concrete inputs (10, 20, 30) and
the 16-bit value 40000. -/
theorem alpha_binarization_witness :
    (pack 10 20 30 true >>> 15) &&& 1 = 1 ∧
    (pack 10 20 30 false >>> 15) &&& 1 = 0 ∧
    ((unpack 40000).2.2.2 = 255 ↔ (40000 >>> 15) &&& 1 = 1) ∧
    ((40000 >>> 15) &&& 1 ≠ 1 → (unpack 40000).2.2.2 = 0) :=
  alpha_binarization 10 20 30 40000 (by decide) (by decide) (by decide)
    (by decide)

/-- C7: `unpack_image` rejects every decoded image that is not a
single-channel 16-bit image with the format-mismatch error, producing no
RGBA output. -/
theorem format_mismatch_guard (img : DynamicImage)
    (hno : img.isLuma16 = false) :
    unpack_image img = Except.error "Expected a 16-bit Luma image" ∧
    (unpack_image img).isOk = false := by
  cases img with
  | ImageLuma16 w h s => simp [DynamicImage.isLuma16] at hno
  | ImageRgb8 w h p => exact ⟨rfl, rfl⟩
  | ImageRgba8 w h p => exact ⟨rfl, rfl⟩

/-- C7 witness: a concrete 3-channel 8-bit image is rejected. -/
theorem format_mismatch_guard_witness :
    unpack_image (DynamicImage.ImageRgb8 1 1 fun _ _ => (0, 0, 0))
      = Except.error "Expected a 16-bit Luma image" ∧
    (unpack_image (DynamicImage.ImageRgb8 1 1 fun _ _ => (0, 0, 0))).isOk
      = false :=
  format_mismatch_guard (DynamicImage.ImageRgb8 1 1 fun _ _ => (0, 0, 0)) rfl

/-- C8: both transcoders are per-pixel maps: the packed buffer holds
`pack r g b (a > 0)` of input pixel (x, y) at row-major index
`y * width + x`, and the unpacked output of a 16-bit single-channel image
holds `unpack` of the sample at (x, y) at the same index. -/
theorem transcoders_pointwise (w h x y : Nat)
    (px : Nat → Nat → Nat × Nat × Nat × Nat) (s : Nat → Nat → Nat)
    (hx : x < w) (hy : y < h) :
    (pack_image w h px)[y * w + x]? =
      some (pack (px x y).1 (px x y).2.1 (px x y).2.2.1
        (decide (0 < (px x y).2.2.2))) ∧
    ((unpack_image (DynamicImage.ImageLuma16 w h s)).toOption.bind
      fun out => out[y * w + x]?) = some (unpack (s x y)) := by
  have hlt : y * w + x < w * h := rowmajor_lt hx hy
  constructor
  · have hidx : (pack_image w h px)[y * w + x]? =
        some (pack (px ((y * w + x) % w) ((y * w + x) / w)).1
          (px ((y * w + x) % w) ((y * w + x) / w)).2.1
          (px ((y * w + x) % w) ((y * w + x) / w)).2.2.1
          (decide (0 < (px ((y * w + x) % w) ((y * w + x) / w)).2.2.2))) := by
      unfold pack_image
      simp [List.getElem?_map, List.getElem?_range hlt]
    rw [hidx, rowmajor_mod w x y hx, rowmajor_div w x y hx]
  · have hok : unpack_image (DynamicImage.ImageLuma16 w h s)
        = Except.ok ((List.range (w * h)).map fun i =>
            unpack (s (i % w) (i / w))) := rfl
    rw [hok]
    have hidx : (((List.range (w * h)).map fun i =>
        unpack (s (i % w) (i / w)))[y * w + x]?) =
        some (unpack (s ((y * w + x) % w) ((y * w + x) / w))) := by
      simp [List.getElem?_map, List.getElem?_range hlt]
    show (((List.range (w * h)).map fun i =>
      unpack (s (i % w) (i / w)))[y * w + x]?) = some (unpack (s x y))
    rw [hidx, rowmajor_mod w x y hx, rowmajor_div w x y hx]

/-- C8 witness: pointwise transcoding at pixel (1, 1) of a concrete 2x2
image. -/
theorem transcoders_pointwise_witness :
    (pack_image 2 2 fun _ _ => (1, 2, 3, 4))[1 * 2 + 1]? =
      some (pack ((fun (_ _ : Nat) => (1, 2, 3, 4)) 1 1).1
        ((fun (_ _ : Nat) => (1, 2, 3, 4)) 1 1).2.1
        ((fun (_ _ : Nat) => (1, 2, 3, 4)) 1 1).2.2.1
        (decide (0 < ((fun (_ _ : Nat) => (1, 2, 3, 4)) 1 1).2.2.2))) ∧
    ((unpack_image (DynamicImage.ImageLuma16 2 2 fun _ _ => 64512)).toOption.bind
      fun out => out[1 * 2 + 1]?) =
      some (unpack ((fun (_ _ : Nat) => 64512) 1 1)) :=
  transcoders_pointwise 2 2 1 1 (fun _ _ => (1, 2, 3, 4)) (fun _ _ => 64512)
    (by decide) (by decide)

/-- C9: quantization is monotone per channel: increasing one 8-bit channel
(with the others fixed) never decreases the corresponding 5-bit field of the
packed value. -/
theorem pack_monotone (c1 c2 g b : Nat) (a : Bool) (h12 : c1 < c2)
    (h2 : c2 < 256) (hg : g < 256) (hb : b < 256) :
    (pack c1 g b a >>> 10) &&& 31 ≤ (pack c2 g b a >>> 10) &&& 31 ∧
    (pack g c1 b a >>> 5) &&& 31 ≤ (pack g c2 b a >>> 5) &&& 31 ∧
    pack g b c1 a &&& 31 ≤ pack g b c2 a &&& 31 := by
  have h1 : c1 < 256 := by omega
  have hmono := quant5_mono (Nat.le_of_lt h12) h2
  have habit : (if a then 1 else 0 : Nat) ≤ 1 := by cases a <;> simp
  refine ⟨?_, ?_, ?_⟩
  · rw [pack_eq_sum c1 g b a h1 hg hb, pack_eq_sum c2 g b a h2 hg hb,
      (fields_of_sum _ _ _ _ habit (quant5_le h1) (quant5_le hg)
        (quant5_le hb)).2.1,
      (fields_of_sum _ _ _ _ habit (quant5_le h2) (quant5_le hg)
        (quant5_le hb)).2.1]
    exact hmono
  · rw [pack_eq_sum g c1 b a hg h1 hb, pack_eq_sum g c2 b a hg h2 hb,
      (fields_of_sum _ _ _ _ habit (quant5_le hg) (quant5_le h1)
        (quant5_le hb)).2.2.1,
      (fields_of_sum _ _ _ _ habit (quant5_le hg) (quant5_le h2)
        (quant5_le hb)).2.2.1]
    exact hmono
  · rw [pack_eq_sum g b c1 a hg hb h1, pack_eq_sum g b c2 a hg hb h2,
      (fields_of_sum _ _ _ _ habit (quant5_le hg) (quant5_le hb)
        (quant5_le h1)).2.2.2,
      (fields_of_sum _ _ _ _ habit (quant5_le hg) (quant5_le hb)
        (quant5_le h2)).2.2.2]
    exact hmono

/-- C9 witness: monotonicity at the concrete channels 100 < 200 with the
other channels (50, 60) fixed. -/
theorem pack_monotone_witness :
    (pack 100 50 60 false >>> 10) &&& 31 ≤ (pack 200 50 60 false >>> 10) &&& 31 ∧
    (pack 50 100 60 false >>> 5) &&& 31 ≤ (pack 50 200 60 false >>> 5) &&& 31 ∧
    pack 50 60 100 false &&& 31 ≤ pack 50 60 200 false &&& 31 :=
  pack_monotone 100 200 50 60 false (by decide) (by decide) (by decide)
    (by decide)

/-- C10: all intermediate arithmetic in the codec is exact: in `pack` the
u16 expression `c * 31 + 127` never wraps (its maximum `255*31+127 = 8032`
is below 2^16), and in `unpack` the u32 expression `c5 * 255 + 15` never
wraps and each expanded value is at most 255, so the final `u8` casts are
lossless. -/
theorem exact_arithmetic (c c5 : Nat) (hc : c < 256) (h5 : c5 ≤ 31) :
    c * 31 + 127 < 65536 ∧ 255 * 31 + 127 = 8032 ∧
    quant5 c = (c * 31 + 127) / 255 ∧
    c5 * 255 + 15 < 4294967296 ∧
    expand8 c5 = (c5 * 255 + 15) / 31 ∧
    expand8 c5 ≤ 255 ∧ expand8 c5 % 256 = expand8 c5 :=
  ⟨by omega, by norm_num, quant5_plain hc, by omega, expand8_plain h5,
    expand8_le h5, Nat.mod_eq_of_lt (by have := expand8_le h5; omega)⟩

/-- C10 witness: exactness at the extreme inputs c = 255, c5 = 31. -/
theorem exact_arithmetic_witness :
    255 * 31 + 127 < 65536 ∧ 255 * 31 + 127 = 8032 ∧
    quant5 255 = (255 * 31 + 127) / 255 ∧
    31 * 255 + 15 < 4294967296 ∧
    expand8 31 = (31 * 255 + 15) / 31 ∧
    expand8 31 ≤ 255 ∧ expand8 31 % 256 = expand8 31 :=
  exact_arithmetic 255 31 (by decide) (by decide)
